import Mathlib

/-!
Shallow embedding of the pocket-id-k8s-operator reconciliation capability
(`capabilities/pocketidclient` and `crd/pocketidclient`) and proofs of the
specification claims about it.

The TypeScript source is embedded as follows: the CRD interfaces become Lean
structures (optional fields become `Option`), pure helpers become Lean
functions, and the effectful reconciliation functions become functions into a
writer/state/except monad `M` that records every Kubernetes or PocketID API
call as an `Action` in a trace, threads the in-memory resource object (whose
`status.conditions` array is mutated in place by `addCondition`), and
propagates thrown errors.  The outcomes of the external calls (which can
succeed or fail) are supplied by an `Env` record, one field per call site,
so that each execution path of the source is a concrete evaluation.
Timestamps and the jitter drawn by `Math.random()` are modelled as rationals.
-/

namespace PocketID

/-- `enum Phase` from crd/pocketidclient/index.ts. -/
inductive Phase where
  | Pending
  | Ready
  | Failed
  | Retrying
  | Removing
  | RemovalFailed
deriving DecidableEq, Repr

/-- `"True" | "False" | "Unknown"` condition status literals. -/
inductive CondStatus where
  | True
  | False
  | Unknown
deriving DecidableEq, Repr

/-- `interface Condition` from crd/pocketidclient/index.ts.
`lastTransitionTime` (an ISO string produced by `new Date().toISOString()`)
is modelled as a rational timestamp. -/
structure Condition where
  type : String
  status : CondStatus
  observedGeneration : Option Nat := none
  lastTransitionTime : ℚ := 0
  reason : String := ""
  message : String := ""
deriving DecidableEq, Repr

/-- `interface SecretTemplate`: `data` is a `Record<string, string>`,
modelled as an association list preserving key order. -/
structure SecretTemplate where
  name : Option String := none
  data : Option (List (String × String)) := none
deriving DecidableEq, Repr

/-- `interface PocketIDClientStatus`.  `nextRetryTime` (an ISO string)
is modelled as a rational millisecond timestamp. -/
structure PocketIDClientStatus where
  observedGeneration : Option Nat := none
  conditions : Option (List Condition) := none
  phase : Option Phase := none
  retryAttempt : Option Nat := none
  nextRetryTime : Option ℚ := none
  clientId : Option String := none
  secretName : Option String := none
deriving DecidableEq, Repr

/-- The spec fields the reconciler reads: `PocketIDClientSpec` =
`dto_OidcClientCreateDto & { secretTemplate?: SecretTemplate }`.
The pass-through DTO fields (callbackURLs, flags, …) are bundled but not
interpreted by the control flow. -/
structure PocketIDClientSpec where
  name : Option String := none
  id : Option String := none
  callbackURLs : Option (List String) := none
  logoutCallbackURLs : Option (List String) := none
  isPublic : Option Bool := none
  pkceEnabled : Option Bool := none
  isGroupRestricted : Option Bool := none
  launchURL : Option String := none
  requiresReauthentication : Option Bool := none
  secretTemplate : Option SecretTemplate := none
deriving DecidableEq, Repr

/-- The metadata fields the capability reads.  `name`/`namespace` are always
present on delivered resources (the source destructures them with `!`);
`uid` and `generation` may be absent (the watch handler guards on them), and
a JS empty-string uid is falsy, hence `Option String`.  `deletionTimestamp`
only matters by presence. -/
structure Metadata where
  name : String
  namespace' : String
  uid : Option String := none
  generation : Option Nat := none
  deletionTimestamp : Option ℚ := none
  finalizers : Option (List String) := none
deriving DecidableEq, Repr

/-- `class PocketIDClient`. -/
structure PocketIDClient where
  metadata : Metadata
  spec : Option PocketIDClientSpec := none
  status : Option PocketIDClientStatus := none
deriving DecidableEq, Repr

/-! ### Pure helpers -/

/-- `RETRY_CONFIG.baseDelayMs`. -/
def baseDelayMs : ℚ := 5000

/-- `RETRY_CONFIG.maxDelayMs`. -/
def maxDelayMs : ℚ := 300000

/-- `RETRY_CONFIG.maxRetries`. -/
def maxRetries : Nat := 10

/-- `calculateBackoffDelay`: `min(baseDelay * 2^(attempt-1) + jitter, maxDelay)`
with the `Math.random() * 1000` jitter passed in as a parameter. -/
def calculateBackoffDelay (retryAttempt : Nat) (jitter : ℚ) : ℚ :=
  min (baseDelayMs * 2 ^ (retryAttempt - 1) + jitter) maxDelayMs

/-- JS `a || b` on an optional string: `undefined` and `""` are falsy. -/
def jsOrStr (a : Option String) (b : String) : String :=
  match a with
  | none => b
  | some s => if s = "" then b else s

/-- JS `a || 0` on an optional number (as used for `retryAttempt`). -/
def jsOrNat (a : Option Nat) (b : Nat) : Nat :=
  match a with
  | none => b
  | some n => n

/-! ### Template renderer

`renderTemplate` chains five global regex replaces
`\{\{\s*\.Field\s*\}\}` → value.  Each replace is modelled as a
left-to-right scan over the character list that, at each position, attempts
to match the whitespace-tolerant placeholder and on success emits the
replacement value — expanded per ECMAScript `GetSubstitution`, which
interprets `$$`, `$&`, `$` + backquote and `$` + quote (the regexes have no
capture groups, so `$n` and `$<...>` stay literal) — and resumes after the
match. -/

/-- `interface TemplateContext`. -/
structure TemplateContext where
  ClientID : String
  ClientSecret : String
  ClientName : String
  Namespace : String
  ResourceName : String
deriving DecidableEq, Repr

/-- The characters matched by the ECMAScript regex class `\s`: WhiteSpace
(TAB, VT, FF, SP, NBSP, ZWNBSP and the Unicode Space_Separator category)
plus the LineTerminators (LF, CR, LS, PS). -/
def isJsWs (c : Char) : Bool :=
  c = '\t' ∨ c = '\n' ∨ c = '\x0b' ∨ c = '\x0c' ∨ c = '\r' ∨ c = ' ' ∨
  c = '\u00A0' ∨ c = '\u1680' ∨ ('\u2000' ≤ c ∧ c ≤ '\u200A') ∨
  c = '\u2028' ∨ c = '\u2029' ∨ c = '\u202F' ∨ c = '\u205F' ∨
  c = '\u3000' ∨ c = '\uFEFF'

/-- Match one `\{\{\s*\.Field\s*\}\}` placeholder at the head of the input;
return the remainder after the match. -/
def matchPlaceholder (field : List Char) : List Char → Option (List Char)
  | '\x7b' :: '\x7b' :: rest =>
    match rest.dropWhile isJsWs with
    | '.' :: r2 =>
      if field.isPrefixOf r2 then
        match (r2.drop field.length).dropWhile isJsWs with
        | '\x7d' :: '\x7d' :: r4 => some r4
        | _ => none
      else none
    | _ => none
  | _ => none

/-- ECMAScript `GetSubstitution` for a replacement string, specialized to a
regex with no capture groups: `$$` is a dollar sign, `$&` the matched
substring, `$` + backquote the part of the original string before the match,
`$` + quote the part after it; anything else (including `$n` and `$<`, as
there are no capture groups) is literal. -/
def getSubstitution (matched before after : List Char) : List Char → List Char
  | [] => []
  | '$' :: '$' :: rest => '$' :: getSubstitution matched before after rest
  | '$' :: '&' :: rest => matched ++ getSubstitution matched before after rest
  | '$' :: '\x60' :: rest => before ++ getSubstitution matched before after rest
  | '$' :: '\x27' :: rest => after ++ getSubstitution matched before after rest
  | c :: rest => c :: getSubstitution matched before after rest

/-- The left-to-right global-replace scan, structurally recursive on a fuel
bound; each step consumes at least one character, so any fuel of at least the
input length computes the scan to completion (`replaceGo_fuel`).  `pre`
accumulates the part of the original string before the current position, as
required by the backquote/quote substitution patterns. -/
def replaceGo (field repl : List Char) : Nat → List Char → List Char → List Char
  | 0, _, s => s
  | _ + 1, _, [] => []
  | fuel + 1, pre, c :: rest =>
    match matchPlaceholder field (c :: rest) with
    | some r =>
      let matched := (c :: rest).take ((c :: rest).length - r.length)
      getSubstitution matched pre r repl ++
        replaceGo field repl fuel (pre ++ matched) r
    | none => c :: replaceGo field repl fuel (pre ++ [c]) rest

/-- One global replace of a placeholder field by a value. -/
def replacePlaceholder (field repl s : List Char) : List Char :=
  replaceGo field repl s.length [] s

/-- `renderTemplate`: the five chained `.replace(...)` calls, applied in
source order (ClientID first, ResourceName last). -/
def renderTemplate (template : String) (context : TemplateContext) : String :=
  String.mk
    (replacePlaceholder "ResourceName".toList context.ResourceName.toList
      (replacePlaceholder "Namespace".toList context.Namespace.toList
        (replacePlaceholder "ClientName".toList context.ClientName.toList
          (replacePlaceholder "ClientSecret".toList context.ClientSecret.toList
            (replacePlaceholder "ClientID".toList context.ClientID.toList
              template.toList)))))

/-- The condition-ledger upsert inside `addCondition`:
`findIndex` by `type`, replace in place if found, else push. -/
def upsertCondition (conditions : List Condition) (condition : Condition) :
    List Condition :=
  match conditions.findIdx? (fun c => c.type = condition.type) with
  | some idx => conditions.set idx condition
  | none => conditions ++ [condition]

/-- `createCondition` (its `new Date().toISOString()` timestamp is the
caller-supplied `now`). -/
def createCondition (type : String) (status : CondStatus) (reason message : String)
    (generation : Option Nat) (now : ℚ) : Condition :=
  { type := type, status := status, reason := reason, message := message,
    lastTransitionTime := now, observedGeneration := generation }

/-- The spec's condition-ledger invariant: at most one condition per type. -/
def typesUnique (conds : List Condition) : Prop :=
  conds.Pairwise (fun a b => a.type ≠ b.type)

/-! ### Effect model

Every Kubernetes / PocketID API call the capability makes is recorded as an
`Action`.  The call results are supplied by an `Env` with one field per call
site (each site executes at most once per invocation).  `configureApiClient`
only reads process environment variables and is not an external call. -/

/-- A Kubernetes API error (`err.status` drives the 404 check in
`deleteSecret`). -/
structure K8sErr where
  status : Option Nat := none
  msg : String := ""
deriving DecidableEq, Repr

/-- Errors thrown inside a reconciliation attempt. -/
inductive RErr where
  | validation (msg : String)
  | api (msg : String)
  | k8s (e : K8sErr)
deriving DecidableEq, Repr

/-- `err instanceof Error ? err.message : String(err)`. -/
def RErr.message : RErr → String
  | .validation m => m
  | .api m => m
  | .k8s e => e.msg

/-- The observable calls made during one invocation. -/
inductive Action where
  | patchStatus (namespace' name : String) (payload : PocketIDClientStatus)
  | patchConditions (namespace' name : String) (conditions : List Condition)
  | applyFinalizers (namespace' name : String) (finalizers : List String)
  | getOidcClient (id : String)
  | putOidcClient (id : String)
  | postOidcClient (id : String)
  | postOidcClientSecret (id : String)
  | deleteOidcClient (id : String)
  | applySecret (namespace' name : String) (stringData : List (String × String))
      (ownerName ownerUid : String)
  | deleteSecretK8s (namespace' name : String)
deriving DecidableEq, Repr

/-- Is this action a call to the external PocketID service (`OidcService`)? -/
def Action.isExternalCall : Action → Bool
  | .getOidcClient _ => true
  | .putOidcClient _ => true
  | .postOidcClient _ => true
  | .postOidcClientSecret _ => true
  | .deleteOidcClient _ => true
  | _ => false

/-- Is this action a status-subresource write (`PatchStatus`)? -/
def Action.isStatusWrite : Action → Bool
  | .patchStatus _ _ _ => true
  | .patchConditions _ _ _ => true
  | _ => false

/-- Results of each fallible call site, one field per site, plus the clock
(`Date.now`) and the jitter drawn by `Math.random() * 1000`. -/
structure Env where
  now : ℚ := 0
  jitter : ℚ := 0
  condPatchMax : Except K8sErr Unit := .ok ()
  finalizerApply : Except K8sErr Unit := .ok ()
  statusPatchBegin : Except K8sErr Unit := .ok ()
  condPatchBegin : Except K8sErr Unit := .ok ()
  oidcClientExists : Bool := false
  putClientRes : Except String Unit := .ok ()
  postClientRes : Except String Unit := .ok ()
  postSecretRes : Except String String := .ok ""
  condPatchClient : Except K8sErr Unit := .ok ()
  secretApplyRes : Except K8sErr Unit := .ok ()
  condPatchSecret : Except K8sErr Unit := .ok ()
  statusPatchReady : Except K8sErr Unit := .ok ()
  condPatchReady : Except K8sErr Unit := .ok ()
  statusPatchFail : Except K8sErr Unit := .ok ()
  condPatchFail : Except K8sErr Unit := .ok ()
  statusPatchRemoving : Except K8sErr Unit := .ok ()
  oidcClientExistsDel : Bool := false
  deleteClientRes : Except String Unit := .ok ()
  secretDeleteRes : Except K8sErr Unit := .ok ()
  finalizerRemove : Except K8sErr Unit := .ok ()
  statusPatchRemovalFailed : Except K8sErr Unit := .ok ()
  condPatchDeletionFailed : Except K8sErr Unit := .ok ()

/-- The effect monad: a trace of actions, the in-memory resource object
(whose `status.conditions` array `addCondition` mutates in place), and the
thrown-error channel. -/
abbrev M (α : Type) : Type :=
  PocketIDClient → List Action × PocketIDClient × Except RErr α

instance : Monad M where
  pure a := fun s => ([], s, .ok a)
  bind x f := fun s =>
    match x s with
    | (tr, s2, .ok a) =>
      let (tr2, s3, r) := f a s2
      (tr ++ tr2, s3, r)
    | (tr, s2, .error e) => (tr, s2, .error e)

/-- Record one call in the trace. -/
def emit (a : Action) : M Unit := fun s => ([a], s, .ok ())

/-- Read the in-memory resource object. -/
def getClient : M PocketIDClient := fun s => ([], s, .ok s)

/-- Replace the in-memory resource object (models in-place mutation). -/
def setClient (c : PocketIDClient) : M Unit := fun _ => ([], c, .ok ())

/-- `throw err`. -/
def throwErr {α : Type} (e : RErr) : M α := fun s => ([], s, .error e)

/-- Propagate a Kubernetes call result. -/
def liftK8s (r : Except K8sErr Unit) : M Unit := fun s =>
  ([], s, r.mapError RErr.k8s)

/-- Record a PocketID API call and propagate its result. -/
def callApi {α : Type} (a : Action) (res : Except String α) : M α := fun s =>
  ([a], s, res.mapError RErr.api)

/-- `try { x } catch (err) { handler }`. -/
def tryCatchM {α : Type} (x : M α) (handler : RErr → M α) : M α := fun s =>
  match x s with
  | (tr, s2, .ok a) => (tr, s2, .ok a)
  | (tr, s2, .error e) =>
    let (tr2, s3, r) := handler e s2
    (tr ++ tr2, s3, r)

/-- `client.status?.conditions ?? []`, the base array `addCondition` reads. -/
def condsBase (c : PocketIDClient) : List Condition :=
  (c.status.bind (fun st => st.conditions)).getD []

/-- The in-memory effect of `addCondition`'s array mutation: visible on the
client object only when `status.conditions` exists as an array (otherwise
`?? []` created a fresh array whose mutation is lost). -/
def afterAddCondition (c : PocketIDClient) (cond : Condition) : PocketIDClient :=
  match c.status with
  | none => c
  | some st =>
    match st.conditions with
    | none => c
    | some l =>
      { c with status := some { st with conditions := some (upsertCondition l cond) } }

/-- `addCondition`: upsert into the conditions array (mutating the in-memory
object), then `PatchStatus` with only the conditions field; a patch failure
propagates (no try/catch in the source). -/
def addConditionM (cond : Condition) (res : Except K8sErr Unit) : M Unit := do
  let c ← getClient
  let newConds := upsertCondition (condsBase c) cond
  setClient (afterAddCondition c cond)
  emit (.patchConditions c.metadata.namespace' c.metadata.name newConds)
  liftK8s res

/-- A partial status update as passed to `updateStatus`: `none` = key absent,
and for `nextRetryTime` `some none` = key present with value `undefined`. -/
structure StatusUpdate where
  phase : Option Phase := none
  retryAttempt : Option Nat := none
  nextRetryTime : Option (Option ℚ) := none
  clientId : Option String := none
  secretName : Option String := none
deriving DecidableEq, Repr

/-- `{...currentStatus, ...status, observedGeneration: client.metadata?.generation}`. -/
def mergeStatus (cur : PocketIDClientStatus) (u : StatusUpdate)
    (gen : Option Nat) : PocketIDClientStatus :=
  { observedGeneration := gen,
    conditions := cur.conditions,
    phase := match u.phase with | some p => some p | none => cur.phase,
    retryAttempt := match u.retryAttempt with | some n => some n | none => cur.retryAttempt,
    nextRetryTime := match u.nextRetryTime with | some v => v | none => cur.nextRetryTime,
    clientId := match u.clientId with | some v => some v | none => cur.clientId,
    secretName := match u.secretName with | some v => some v | none => cur.secretName }

/-- `updateStatus`: merge the partial update over the current status, stamp
`observedGeneration`, `PatchStatus`; the call result is logged and swallowed
(the `try`/`catch` around the patch), so it never propagates. -/
def updateStatusM (u : StatusUpdate) (res : Except K8sErr Unit) : M Unit := do
  let c ← getClient
  let cur := c.status.getD {}
  let newStatus := mergeStatus cur u c.metadata.generation
  emit (.patchStatus c.metadata.namespace' c.metadata.name newStatus)
  match res with
  | .ok _ => pure ()
  | .error _ => pure ()

/-- `FINALIZER`. -/
def FINALIZER : String := "pocketidclient.jeffrescignano.io/finalizer"

/-- `addFinalizer`. -/
def addFinalizerM (res : Except K8sErr Unit) : M Unit := do
  let c ← getClient
  let finalizers := c.metadata.finalizers.getD []
  if FINALIZER ∈ finalizers then pure ()
  else do
    emit (.applyFinalizers c.metadata.namespace' c.metadata.name
      (finalizers ++ [FINALIZER]))
    liftK8s res

/-- `removeFinalizer`. -/
def removeFinalizerM (res : Except K8sErr Unit) : M Unit := do
  let c ← getClient
  let finalizers := c.metadata.finalizers.getD []
  if FINALIZER ∈ finalizers then do
    emit (.applyFinalizers c.metadata.namespace' c.metadata.name
      (finalizers.filter (fun f => f ≠ FINALIZER)))
    liftK8s res
  else pure ()

/-- `clientExists`: one GET against the service; any fetch error was already
collapsed to `false` by the source's `catch`, so the environment supplies the
boolean outcome directly. -/
def clientExistsM (id : String) (res : Bool) : M Bool := do
  emit (.getOidcClient id)
  pure res

/-- `deleteSecret`: delete, tolerating a 404 result; any other failure
propagates. -/
def deleteSecretM (namespace' secretName : String)
    (res : Except K8sErr Unit) : M Unit := do
  emit (.deleteSecretK8s namespace' secretName)
  match res with
  | .ok _ => pure ()
  | .error e => if e.status = some 404 then pure () else throwErr (.k8s e)

/-- `shouldSkipDueToBackoff`. -/
def shouldSkipDueToBackoff (now : ℚ) (client : PocketIDClient) : Bool :=
  match client.status with
  | none => false
  | some st =>
    match st.nextRetryTime with
    | none => false
    | some nextRetry =>
      if st.phase = some Phase.Ready then false
      else decide (now < nextRetry)

/-- `upsertSecret`: build the template context, derive `stringData` (templated
values rendered, else the default `CLIENT_ID`/`CLIENT_SECRET` map) and apply
the Secret with the owner reference. -/
def upsertSecretM (namespace' secretName clientId clientSecret : String)
    (ownerName ownerUid : String) (secretTemplate : Option SecretTemplate)
    (clientName : Option String) (res : Except K8sErr Unit) : M Unit := do
  let context : TemplateContext :=
    { ClientID := clientId, ClientSecret := clientSecret,
      ClientName := jsOrStr clientName "", Namespace := namespace',
      ResourceName := ownerName }
  let stringData : List (String × String) :=
    match secretTemplate.bind (fun st => st.data) with
    | some d => d.map (fun kv => (kv.1, renderTemplate kv.2 context))
    | none => [("CLIENT_ID", clientId), ("CLIENT_SECRET", clientSecret)]
  emit (.applySecret namespace' secretName stringData ownerName ownerUid)
  liftK8s res

/-- The body of `reconcile`'s `try` block: validate `spec.name`, resolve the
client id and secret name, branch on existence (update vs. create), rotate
the secret, materialize the Kubernetes Secret, and record conditions. -/
def attemptUpsert (env : Env) : M Unit := do
  let c ← getClient
  let md := c.metadata
  let specName := jsOrStr (c.spec.bind (fun s => s.name)) ""
  if specName = "" then throwErr (.validation "spec.name is required")
  else do
    let clientId := jsOrStr (c.spec.bind (fun s => s.id)) md.name
    let secretName := jsOrStr ((c.spec.bind (fun s => s.secretTemplate)).bind
      (fun st => st.name)) (md.name ++ "-credentials")
    let exists' ← clientExistsM clientId env.oidcClientExists
    let clientSecret ←
      if exists' then do
        let _ ← callApi (.putOidcClient clientId) env.putClientRes
        let s ← callApi (.postOidcClientSecret clientId) env.postSecretRes
        addConditionM (createCondition "ClientUpdated" .True "UpdateSucceeded"
          ("OIDC client " ++ clientId ++ " updated successfully")
          md.generation env.now) env.condPatchClient
        pure s
      else do
        let _ ← callApi (.postOidcClient clientId) env.postClientRes
        let s ← callApi (.postOidcClientSecret clientId) env.postSecretRes
        addConditionM (createCondition "ClientCreated" .True "CreateSucceeded"
          ("OIDC client " ++ clientId ++ " created successfully")
          md.generation env.now) env.condPatchClient
        pure s
    upsertSecretM md.namespace' secretName clientId clientSecret
      md.name (md.uid.getD "") (c.spec.bind (fun s => s.secretTemplate))
      (c.spec.bind (fun s => s.name)) env.secretApplyRes
    addConditionM (createCondition "SecretCreated" .True "SecretReady"
      ("Secret " ++ secretName ++ " created/updated") md.generation env.now)
      env.condPatchSecret
    updateStatusM { phase := some .Ready, clientId := some clientId,
                    secretName := some secretName, retryAttempt := some 0,
                    nextRetryTime := some none } env.statusPatchReady
    addConditionM (createCondition "Ready" .True "ReconcileSucceeded"
      "Reconciliation completed successfully" md.generation env.now)
      env.condPatchReady

/-- `handleDeletion`. -/
def handleDeletionM (env : Env) : M Unit := do
  let c ← getClient
  let md := c.metadata
  updateStatusM { phase := some .Removing } env.statusPatchRemoving
  tryCatchM
    (do
      let clientId := jsOrStr (c.status.bind (fun st => st.clientId))
        (jsOrStr (c.spec.bind (fun s => s.id)) md.name)
      let exists' ← clientExistsM clientId env.oidcClientExistsDel
      if exists' then do
        let _ ← callApi (.deleteOidcClient clientId) env.deleteClientRes
        pure ()
      else pure ()
      let secretName := jsOrStr (c.status.bind (fun st => st.secretName))
        (md.name ++ "-credentials")
      deleteSecretM md.namespace' secretName env.secretDeleteRes
      removeFinalizerM env.finalizerRemove)
    (fun err => do
      updateStatusM { phase := some .RemovalFailed } env.statusPatchRemovalFailed
      addConditionM (createCondition "Ready" .False "DeletionFailed"
        ("Deletion failed: " ++ err.message) md.generation env.now)
        env.condPatchDeletionFailed)

/-- `reconcile`: deletion branch, already-reconciled check, backoff gate,
max-retry gate, begin-attempt writes, then the guarded upsert sequence with
its failure handler. -/
def reconcileM (env : Env) : M Unit := do
  let c ← getClient
  let md := c.metadata
  if md.deletionTimestamp.isSome then handleDeletionM env
  else do
    let obsGen := c.status.bind (fun st => st.observedGeneration)
    let phase := c.status.bind (fun st => st.phase)
    if obsGen = md.generation ∧ phase = some Phase.Ready then pure ()
    else if shouldSkipDueToBackoff env.now c ∧ obsGen = md.generation then pure ()
    else do
      let currentRetry := jsOrNat (c.status.bind (fun st => st.retryAttempt)) 0
      if maxRetries ≤ currentRetry then
        addConditionM (createCondition "Ready" .False "MaxRetriesExceeded"
          ("Gave up after " ++ toString currentRetry ++
            " failed attempts. Manual intervention required.")
          md.generation env.now) env.condPatchMax
      else do
        addFinalizerM env.finalizerApply
        let newPhase := if 0 < currentRetry then Phase.Retrying else Phase.Pending
        updateStatusM { phase := some newPhase, nextRetryTime := some none }
          env.statusPatchBegin
        addConditionM (createCondition "Reconciling" .True
          (if 0 < currentRetry then "RetryStarted" else "ReconcileStarted")
          (if 0 < currentRetry then
            "Retry attempt " ++ toString (currentRetry + 1) ++ "/" ++ toString maxRetries
          else "Starting reconciliation")
          md.generation env.now) env.condPatchBegin
        tryCatchM (attemptUpsert env)
          (fun err => do
            let c2 ← getClient
            let retryAttempt := jsOrNat (c2.status.bind (fun st => st.retryAttempt)) 0 + 1
            let backoffDelay := calculateBackoffDelay retryAttempt env.jitter
            let nextRetryTime := env.now + backoffDelay
            updateStatusM { phase := some .Failed, retryAttempt := some retryAttempt,
                            nextRetryTime := some (some nextRetryTime) }
              env.statusPatchFail
            addConditionM (createCondition "Ready" .False "ReconcileFailed"
              ("Reconciliation failed: " ++ err.message ++ ". Retry " ++
                toString retryAttempt ++ "/" ++ toString maxRetries ++ " scheduled.")
              md.generation env.now) env.condPatchFail)

/-- Run `reconcile` on a resource snapshot: the trace and outcome. -/
def runReconcile (env : Env) (client : PocketIDClient) :
    List Action × Except RErr Unit :=
  let (tr, _, r) := reconcileM env client
  (tr, r)

/-- Run `handleDeletion` on a resource snapshot: the trace and outcome. -/
def runHandleDeletion (env : Env) (client : PocketIDClient) :
    List Action × Except RErr Unit :=
  let (tr, _, r) := handleDeletionM env client
  (tr, r)

/-- `lastGenByUid.set(uid, generation)` on the association-list model of the
dedup `Map`. -/
def setGen (m : List (String × Nat)) (k : String) (v : Nat) :
    List (String × Nat) :=
  if m.any (fun p => p.1 = k) then
    m.map (fun p => if p.1 = k then (k, v) else p)
  else m ++ [(k, v)]

/-- `lastGenByUid.get(uid)`. -/
def getGen (m : List (String × Nat)) (k : String) : Option Nat :=
  (m.find? (fun p => p.1 = k)).map (fun p => p.2)

/-- The `When(PocketIDClient).IsCreatedOrUpdated().Watch` handler: the gate on
missing uid / undefined generation (an empty-string uid is falsy; a
generation of 0 is not), the dedup-ledger check and write, then `reconcile`.
Deletion events bypass the gate and the ledger.  Returns the ledger after the
event, the trace, and the outcome. -/
def watchUpsertHandler (env : Env) (lastGenByUid : List (String × Nat))
    (client : PocketIDClient) :
    List (String × Nat) × List Action × Except RErr Unit :=
  let md := client.metadata
  if md.deletionTimestamp.isNone then
    if jsOrStr md.uid "" = "" ∨ md.generation = none then
      (lastGenByUid, [], .ok ())
    else
      let uid := jsOrStr md.uid ""
      let generation := md.generation.getD 0
      if getGen lastGenByUid uid = some generation then (lastGenByUid, [], .ok ())
      else
        let ledger := setGen lastGenByUid uid generation
        let (tr, r) := runReconcile env client
        (ledger, tr, r)
  else
    let (tr, r) := runReconcile env client
    (lastGenByUid, tr, r)

/-! ### Concrete fixtures used by witnesses and counterexamples -/

/-- A typical delivered metadata block. -/
def mdFix : Metadata :=
  { name := "app", namespace' := "ns", uid := some "u1", generation := some 3 }

/-- A minimal valid spec. -/
def specFix : PocketIDClientSpec := { name := some "My App" }

/-- A freshly created resource: no status yet. -/
def freshClient : PocketIDClient := { metadata := mdFix, spec := some specFix }

/-- A resource that has exhausted its retry budget at generation 3. -/
def maxedClient : PocketIDClient :=
  { metadata := mdFix, spec := some specFix,
    status := some { observedGeneration := some 3, phase := some Phase.Failed,
                     retryAttempt := some 10 } }

/-- `maxedClient` after a spec edit bumped the generation to 4. -/
def maxedBumpedClient : PocketIDClient :=
  { maxedClient with metadata := { mdFix with generation := some 4 } }

/-- A resource in steady state: phase Ready, observedGeneration current. -/
def readyClient : PocketIDClient :=
  { metadata := mdFix, spec := some specFix,
    status := some { observedGeneration := some 3, phase := some Phase.Ready,
                     clientId := some "cid", secretName := some "sn" } }

/-- An upsert event with no uid. -/
def noUidClient : PocketIDClient :=
  { metadata := { name := "app", namespace' := "ns", generation := some 1 },
    spec := some { name := some "My App" } }

/-- An upsert event whose generation is 0 (a legal, present value). -/
def genZeroClient : PocketIDClient :=
  { metadata := { name := "app", namespace' := "ns", uid := some "u2",
                  generation := some 0 },
    spec := some { name := some "My App" } }

/-- A resource being deleted: deletion marker set, finalizer held, status
recorded from an earlier successful reconciliation. -/
def delClient : PocketIDClient :=
  { metadata := { name := "app", namespace' := "ns", uid := some "u1",
                  generation := some 3, deletionTimestamp := some 50,
                  finalizers := some [FINALIZER] },
    spec := some { name := some "My App" },
    status := some { observedGeneration := some 3, phase := some Phase.Ready,
                     clientId := some "cid", secretName := some "sn" } }

/-- A resource with a custom secret name in its spec whose `status.secretName`
was never persisted, marked for deletion. -/
def customClientDel : PocketIDClient :=
  { metadata := { name := "app", namespace' := "ns", uid := some "u1",
                  generation := some 3, deletionTimestamp := some 50,
                  finalizers := some [FINALIZER] },
    spec := some { name := some "My App",
                   secretTemplate := some { name := some "custom" } },
    status := some { observedGeneration := some 3,
                     phase := some Phase.Failed } }

/-- The same custom-secret-name resource as an upsert event (no deletion
marker, no status yet). -/
def customClientUpsert : PocketIDClient :=
  { metadata := { name := "app", namespace' := "ns", uid := some "u1",
                  generation := some 3 },
    spec := some { name := some "My App",
                   secretTemplate := some { name := some "custom" } } }

/-- An environment where the `ClientCreated` condition patch fails and all
other calls succeed. -/
def failingCondEnv : Env :=
  { now := 100, postSecretRes := .ok "sek",
    condPatchClient := .error ⟨none, "patch failed"⟩ }

/-- Does the input contain a whitespace-tolerant placeholder for `field`
at any position? -/
def containsPlaceholder (field : List Char) : List Char → Bool
  | [] => false
  | c :: rest =>
    (matchPlaceholder field (c :: rest)).isSome || containsPlaceholder field rest

/-- Does the string contain any of the five recognized placeholders? -/
def hasRecognizedPlaceholder (t : String) : Bool :=
  containsPlaceholder "ClientID".toList t.toList ||
  containsPlaceholder "ClientSecret".toList t.toList ||
  containsPlaceholder "ClientName".toList t.toList ||
  containsPlaceholder "Namespace".toList t.toList ||
  containsPlaceholder "ResourceName".toList t.toList

/-! ### Trace-invariant vocabulary

The only in-memory state change during an invocation is `addCondition`'s
mutation of `status.conditions`; every other resource field is stable.  The
`coreOf` projection (metadata, spec, status minus conditions) is therefore
invariant across an invocation, and per-action predicates expressed over it
can be propagated through the control flow compositionally. -/

/-- The condition-mutation-invariant part of the in-memory resource. -/
def coreOf (s : PocketIDClient) :
    Metadata × Option PocketIDClientSpec × Option PocketIDClientStatus :=
  (s.metadata, s.spec, s.status.map fun st => { st with conditions := none })

/-- Every action emitted by `m`, started from any state with the same core
as `s₀`, satisfies `P`, and the core is preserved. -/
def TraceInv {α : Type} (P : Action → Prop) (m : M α) (s₀ : PocketIDClient) :
    Prop :=
  ∀ s, coreOf s = coreOf s₀ →
    (∀ a ∈ (m s).1, P a) ∧ coreOf (m s).2.1 = coreOf s₀

/-! ## Theorems -/

/-! ### Evaluation lemmas for the effect monad -/

@[simp]
theorem bind_apply {α β : Type} (x : M α) (f : α → M β) (s : PocketIDClient) :
    (x >>= f) s =
      match x s with
      | (tr, s2, .ok a) =>
        let (tr2, s3, r) := f a s2
        (tr ++ tr2, s3, r)
      | (tr, s2, .error e) => (tr, s2, .error e) := rfl

@[simp]
theorem pure_apply {α : Type} (a : α) (s : PocketIDClient) :
    (pure a : M α) s = ([], s, .ok a) := rfl

@[simp]
theorem emit_apply (a : Action) (s : PocketIDClient) :
    emit a s = ([a], s, .ok ()) := rfl

@[simp]
theorem getClient_apply (s : PocketIDClient) : getClient s = ([], s, .ok s) := rfl

@[simp]
theorem setClient_apply (c s : PocketIDClient) :
    setClient c s = ([], c, .ok ()) := rfl

@[simp]
theorem throwErr_apply {α : Type} (e : RErr) (s : PocketIDClient) :
    (throwErr e : M α) s = ([], s, .error e) := rfl

@[simp]
theorem liftK8s_apply (r : Except K8sErr Unit) (s : PocketIDClient) :
    liftK8s r s = ([], s, r.mapError RErr.k8s) := rfl

@[simp]
theorem callApi_apply {α : Type} (a : Action) (res : Except String α)
    (s : PocketIDClient) : callApi a res s = ([a], s, res.mapError RErr.api) := rfl

@[simp]
theorem tryCatchM_apply {α : Type} (x : M α) (handler : RErr → M α)
    (s : PocketIDClient) :
    tryCatchM x handler s =
      match x s with
      | (tr, s2, .ok a) => (tr, s2, .ok a)
      | (tr, s2, .error e) =>
        let (tr2, s3, r) := handler e s2
        (tr ++ tr2, s3, r) := rfl

@[simp]
theorem mapError_ok {ε ε' α : Type} (f : ε → ε') (a : α) :
    Except.mapError f (.ok a : Except ε α) = .ok a := rfl

@[simp]
theorem mapError_error {ε ε' α : Type} (f : ε → ε') (e : ε) :
    Except.mapError f (.error e : Except ε α) = .error (f e) := rfl

@[simp]
theorem updateStatusM_apply (u : StatusUpdate) (res : Except K8sErr Unit)
    (s : PocketIDClient) :
    updateStatusM u res s =
      ([.patchStatus s.metadata.namespace' s.metadata.name
          (mergeStatus (s.status.getD {}) u s.metadata.generation)], s, .ok ()) := by
  cases res with
  | ok v => rfl
  | error e => rfl

@[simp]
theorem addConditionM_apply (cond : Condition) (res : Except K8sErr Unit)
    (s : PocketIDClient) :
    addConditionM cond res s =
      ([.patchConditions s.metadata.namespace' s.metadata.name
          (upsertCondition (condsBase s) cond)],
       afterAddCondition s cond, res.mapError RErr.k8s) := rfl

@[simp]
theorem clientExistsM_apply (id : String) (res : Bool) (s : PocketIDClient) :
    clientExistsM id res s = ([.getOidcClient id], s, .ok res) := rfl

@[simp]
theorem deleteSecretM_ok (namespace' secretName : String) (s : PocketIDClient) :
    deleteSecretM namespace' secretName (.ok ()) s =
      ([.deleteSecretK8s namespace' secretName], s, .ok ()) := rfl

@[simp]
theorem deleteSecretM_error (namespace' secretName : String) (e : K8sErr)
    (s : PocketIDClient) :
    deleteSecretM namespace' secretName (.error e) s =
      ([.deleteSecretK8s namespace' secretName], s,
       if e.status = some 404 then .ok () else .error (.k8s e)) := by
  by_cases h : e.status = some 404 <;> simp [deleteSecretM, h, throwErr, emit]

theorem removeFinalizerM_mem (res : Except K8sErr Unit) (s : PocketIDClient)
    (h : FINALIZER ∈ s.metadata.finalizers.getD []) :
    removeFinalizerM res s =
      ([.applyFinalizers s.metadata.namespace' s.metadata.name
          ((s.metadata.finalizers.getD []).filter (fun f => f ≠ FINALIZER))],
       s, res.mapError RErr.k8s) := by
  unfold removeFinalizerM
  simp [h]

theorem removeFinalizerM_not_mem (res : Except K8sErr Unit) (s : PocketIDClient)
    (h : FINALIZER ∉ s.metadata.finalizers.getD []) :
    removeFinalizerM res s = ([], s, .ok ()) := by
  unfold removeFinalizerM
  simp [h]

theorem addFinalizerM_mem (res : Except K8sErr Unit) (s : PocketIDClient)
    (h : FINALIZER ∈ s.metadata.finalizers.getD []) :
    addFinalizerM res s = ([], s, .ok ()) := by
  unfold addFinalizerM
  simp [h]

theorem addFinalizerM_not_mem (res : Except K8sErr Unit) (s : PocketIDClient)
    (h : FINALIZER ∉ s.metadata.finalizers.getD []) :
    addFinalizerM res s =
      ([.applyFinalizers s.metadata.namespace' s.metadata.name
          (s.metadata.finalizers.getD [] ++ [FINALIZER])],
       s, res.mapError RErr.k8s) := by
  unfold addFinalizerM
  simp [h]

@[simp]
theorem upsertSecretM_apply (namespace' secretName clientId clientSecret : String)
    (ownerName ownerUid : String) (secretTemplate : Option SecretTemplate)
    (clientName : Option String) (res : Except K8sErr Unit) (s : PocketIDClient) :
    upsertSecretM namespace' secretName clientId clientSecret ownerName ownerUid
        secretTemplate clientName res s =
      ([.applySecret namespace' secretName
          (match secretTemplate.bind (fun st => st.data) with
           | some d => d.map (fun kv => (kv.1, renderTemplate kv.2
               { ClientID := clientId, ClientSecret := clientSecret,
                 ClientName := jsOrStr clientName "", Namespace := namespace',
                 ResourceName := ownerName }))
           | none => [("CLIENT_ID", clientId), ("CLIENT_SECRET", clientSecret)])
          ownerName ownerUid],
       s, res.mapError RErr.k8s) := rfl

/-! ### Core-preservation lemmas -/

theorem coreOf_afterAddCondition (s : PocketIDClient) (cond : Condition) :
    coreOf (afterAddCondition s cond) = coreOf s := by
  unfold coreOf afterAddCondition
  cases hs : s.status with
  | none => simp [hs]
  | some st =>
    cases hc : st.conditions with
    | none => simp [hs, hc]
    | some l => simp [hs, hc]

theorem coreOf_metadata {s t : PocketIDClient} (h : coreOf s = coreOf t) :
    s.metadata = t.metadata := congrArg (fun p => p.1) h

theorem coreOf_spec {s t : PocketIDClient} (h : coreOf s = coreOf t) :
    s.spec = t.spec := congrArg (fun p => p.2.1) h

theorem coreOf_secretName {s t : PocketIDClient} (h : coreOf s = coreOf t) :
    (s.status.bind fun st => st.secretName) =
      t.status.bind fun st => st.secretName := by
  have h2 : (s.status.map fun st => { st with conditions := none }) =
      t.status.map fun st => { st with conditions := none } :=
    congrArg (fun p => p.2.2) h
  cases hs : s.status with
  | none =>
    cases ht : t.status with
    | none => rfl
    | some st2 => rw [hs, ht] at h2; simp at h2
  | some st1 =>
    cases ht : t.status with
    | none => rw [hs, ht] at h2; simp at h2
    | some st2 =>
      rw [hs, ht] at h2
      simp only [Option.map_some', Option.some.injEq] at h2
      have h3 := congrArg PocketIDClientStatus.secretName h2
      simpa using h3

/-! ### TraceInv combinators -/

theorem traceInv_pure {α : Type} (P : Action → Prop) (a : α)
    (s₀ : PocketIDClient) : TraceInv P (pure a) s₀ := by
  intro s hs
  exact ⟨by simp, hs⟩

theorem traceInv_bind {α β : Type} {P : Action → Prop} {x : M α}
    {f : α → M β} {s₀ : PocketIDClient}
    (hx : TraceInv P x s₀) (hf : ∀ a, TraceInv P (f a) s₀) :
    TraceInv P (x >>= f) s₀ := by
  intro s hs
  obtain ⟨hx1, hx2⟩ := hx s hs
  rcases hmx : x s with ⟨tr, s2, r⟩
  rw [hmx] at hx1 hx2
  simp only at hx1 hx2
  cases r with
  | ok a =>
    obtain ⟨hf1, hf2⟩ := hf a s2 hx2
    rcases hmf : f a s2 with ⟨tr2, s3, r2⟩
    rw [hmf] at hf1 hf2
    simp only at hf1 hf2
    have heq : (x >>= f) s = (tr ++ tr2, s3, r2) := by
      simp only [bind_apply, hmx, hmf]
    rw [heq]
    refine ⟨fun b hb => ?_, hf2⟩
    rcases List.mem_append.mp hb with h | h
    · exact hx1 b h
    · exact hf1 b h
  | error e =>
    have heq : (x >>= f) s = (tr, s2, .error e) := by
      simp only [bind_apply, hmx]
    rw [heq]
    exact ⟨hx1, hx2⟩

theorem traceInv_getClient_bind {β : Type} {P : Action → Prop}
    {f : PocketIDClient → M β} {s₀ : PocketIDClient}
    (hf : ∀ c, coreOf c = coreOf s₀ → TraceInv P (f c) s₀) :
    TraceInv P (getClient >>= f) s₀ := by
  intro s hs
  have heq : (getClient >>= f) s = f s s := by
    rcases hmf : f s s with ⟨tr, s2, r⟩
    simp only [bind_apply, getClient_apply, hmf]
    simp
  rw [heq]
  exact hf s hs s hs

theorem traceInv_ite {α : Type} {P : Action → Prop} {c : Prop} [Decidable c]
    {x y : M α} {s₀ : PocketIDClient}
    (hx : TraceInv P x s₀) (hy : TraceInv P y s₀) :
    TraceInv P (if c then x else y) s₀ := by
  by_cases h : c
  · simpa [h] using hx
  · simpa [h] using hy

theorem traceInv_tryCatchM {α : Type} {P : Action → Prop} {x : M α}
    {handler : RErr → M α} {s₀ : PocketIDClient}
    (hx : TraceInv P x s₀) (hh : ∀ e, TraceInv P (handler e) s₀) :
    TraceInv P (tryCatchM x handler) s₀ := by
  intro s hs
  obtain ⟨hx1, hx2⟩ := hx s hs
  rcases hmx : x s with ⟨tr, s2, r⟩
  rw [hmx] at hx1 hx2
  simp only at hx1 hx2
  cases r with
  | ok a =>
    have heq : tryCatchM x handler s = (tr, s2, .ok a) := by
      simp only [tryCatchM_apply, hmx]
    rw [heq]
    exact ⟨hx1, hx2⟩
  | error e =>
    obtain ⟨hh1, hh2⟩ := hh e s2 hx2
    rcases hmh : handler e s2 with ⟨tr2, s3, r2⟩
    rw [hmh] at hh1 hh2
    simp only at hh1 hh2
    have heq : tryCatchM x handler s = (tr ++ tr2, s3, r2) := by
      simp only [tryCatchM_apply, hmx, hmh]
    rw [heq]
    refine ⟨fun b hb => ?_, hh2⟩
    rcases List.mem_append.mp hb with h | h
    · exact hx1 b h
    · exact hh1 b h

theorem traceInv_throwErr {α : Type} (P : Action → Prop) (e : RErr)
    (s₀ : PocketIDClient) : TraceInv P (throwErr e : M α) s₀ := by
  intro s hs
  exact ⟨by simp, hs⟩

theorem traceInv_updateStatusM {P : Action → Prop} {u : StatusUpdate}
    {res : Except K8sErr Unit} {s₀ : PocketIDClient}
    (h : ∀ s, coreOf s = coreOf s₀ →
      P (.patchStatus s.metadata.namespace' s.metadata.name
          (mergeStatus (s.status.getD {}) u s.metadata.generation))) :
    TraceInv P (updateStatusM u res) s₀ := by
  intro s hs
  simp only [updateStatusM_apply]
  refine ⟨fun a ha => ?_, hs⟩
  simp only [List.mem_singleton] at ha
  subst ha
  exact h s hs

theorem traceInv_addConditionM {P : Action → Prop} {cond : Condition}
    {res : Except K8sErr Unit} {s₀ : PocketIDClient}
    (h : ∀ s, coreOf s = coreOf s₀ →
      P (.patchConditions s.metadata.namespace' s.metadata.name
          (upsertCondition (condsBase s) cond))) :
    TraceInv P (addConditionM cond res) s₀ := by
  intro s hs
  simp only [addConditionM_apply]
  refine ⟨fun a ha => ?_, ?_⟩
  · simp only [List.mem_singleton] at ha
    subst ha
    exact h s hs
  · rw [coreOf_afterAddCondition]
    exact hs

theorem traceInv_clientExistsM {P : Action → Prop} {id : String} {res : Bool}
    {s₀ : PocketIDClient} (h : P (.getOidcClient id)) :
    TraceInv P (clientExistsM id res) s₀ := by
  intro s hs
  simp only [clientExistsM_apply]
  refine ⟨fun a ha => ?_, hs⟩
  simp only [List.mem_singleton] at ha
  subst ha
  exact h

theorem traceInv_callApi {α : Type} {P : Action → Prop} {a : Action}
    {res : Except String α} {s₀ : PocketIDClient} (h : P a) :
    TraceInv P (callApi a res) s₀ := by
  intro s hs
  refine ⟨fun b hb => ?_, hs⟩
  simp only [callApi_apply, List.mem_singleton] at hb
  subst hb
  exact h

theorem traceInv_deleteSecretM {P : Action → Prop} {namespace' n : String}
    {res : Except K8sErr Unit} {s₀ : PocketIDClient}
    (h : P (.deleteSecretK8s namespace' n)) :
    TraceInv P (deleteSecretM namespace' n res) s₀ := by
  intro s hs
  cases res with
  | ok v =>
    cases v
    simp only [deleteSecretM_ok]
    refine ⟨fun a ha => ?_, hs⟩
    simp only [List.mem_singleton] at ha
    subst ha
    exact h
  | error e =>
    simp only [deleteSecretM_error]
    refine ⟨fun a ha => ?_, hs⟩
    simp only [List.mem_singleton] at ha
    subst ha
    exact h

theorem traceInv_addFinalizerM {P : Action → Prop} {res : Except K8sErr Unit}
    {s₀ : PocketIDClient}
    (h : ∀ s, coreOf s = coreOf s₀ →
      P (.applyFinalizers s.metadata.namespace' s.metadata.name
          (s.metadata.finalizers.getD [] ++ [FINALIZER]))) :
    TraceInv P (addFinalizerM res) s₀ := by
  intro s hs
  by_cases hm : FINALIZER ∈ s.metadata.finalizers.getD []
  · rw [addFinalizerM_mem res s hm]
    exact ⟨by simp, hs⟩
  · rw [addFinalizerM_not_mem res s hm]
    refine ⟨fun a ha => ?_, hs⟩
    simp only [List.mem_singleton] at ha
    subst ha
    exact h s hs

theorem traceInv_removeFinalizerM {P : Action → Prop} {res : Except K8sErr Unit}
    {s₀ : PocketIDClient}
    (h : ∀ s, coreOf s = coreOf s₀ →
      P (.applyFinalizers s.metadata.namespace' s.metadata.name
          ((s.metadata.finalizers.getD []).filter (fun f => f ≠ FINALIZER)))) :
    TraceInv P (removeFinalizerM res) s₀ := by
  intro s hs
  by_cases hm : FINALIZER ∈ s.metadata.finalizers.getD []
  · rw [removeFinalizerM_mem res s hm]
    refine ⟨fun a ha => ?_, hs⟩
    simp only [List.mem_singleton] at ha
    subst ha
    exact h s hs
  · rw [removeFinalizerM_not_mem res s hm]
    exact ⟨by simp, hs⟩

theorem traceInv_upsertSecretM {P : Action → Prop}
    {namespace' secretName clientId clientSecret ownerName ownerUid : String}
    {secretTemplate : Option SecretTemplate} {clientName : Option String}
    {res : Except K8sErr Unit} {s₀ : PocketIDClient}
    (h : ∀ sd, P (.applySecret namespace' secretName sd ownerName ownerUid)) :
    TraceInv P (upsertSecretM namespace' secretName clientId clientSecret
      ownerName ownerUid secretTemplate clientName res) s₀ := by
  intro s hs
  simp only [upsertSecretM_apply]
  refine ⟨fun a ha => ?_, hs⟩
  simp only [List.mem_singleton] at ha
  subst ha
  exact h _

theorem runReconcile_fst (env : Env) (c : PocketIDClient) :
    (runReconcile env c).1 = (reconcileM env c).1 := by
  unfold runReconcile
  rcases reconcileM env c with ⟨tr, s, r⟩
  rfl

theorem runHandleDeletion_fst (env : Env) (c : PocketIDClient) :
    (runHandleDeletion env c).1 = (handleDeletionM env c).1 := by
  unfold runHandleDeletion
  rcases handleDeletionM env c with ⟨tr, s, r⟩
  rfl

/-! ### Structural walks: `TraceInv` for the composite reconcile functions -/

theorem traceInv_attemptUpsert {P : Action → Prop} {env : Env}
    {s₀ : PocketIDClient}
    (hget : ∀ id, P (.getOidcClient id))
    (hput : ∀ id, P (.putOidcClient id))
    (hpostc : ∀ id, P (.postOidcClient id))
    (hposts : ∀ id, P (.postOidcClientSecret id))
    (hconds : ∀ ns n l, P (.patchConditions ns n l))
    (hstatus : ∀ s u, coreOf s = coreOf s₀ →
      P (.patchStatus s.metadata.namespace' s.metadata.name
          (mergeStatus (s.status.getD {}) u s.metadata.generation)))
    (hsecret : ∀ s sd, coreOf s = coreOf s₀ →
      P (.applySecret s.metadata.namespace'
          (jsOrStr ((s.spec.bind fun sp => sp.secretTemplate).bind fun st => st.name)
            (s.metadata.name ++ "-credentials"))
          sd s.metadata.name (s.metadata.uid.getD ""))) :
    TraceInv P (attemptUpsert env) s₀ := by
  unfold attemptUpsert
  refine traceInv_getClient_bind (fun c hc => ?_)
  refine traceInv_ite (traceInv_throwErr _ _ _) ?_
  refine traceInv_bind (traceInv_clientExistsM (hget _)) (fun ex => ?_)
  dsimp only
  refine traceInv_ite ?_ ?_
  · refine traceInv_bind (traceInv_callApi (hput _)) (fun _ => ?_)
    refine traceInv_bind (traceInv_callApi (hposts _)) (fun sv => ?_)
    refine traceInv_bind (traceInv_addConditionM (fun s hs => hconds _ _ _))
      (fun _ => ?_)
    refine traceInv_bind (traceInv_pure _ _ _) (fun clientSecret => ?_)
    refine traceInv_bind (traceInv_upsertSecretM (fun sd => hsecret c sd hc))
      (fun _ => ?_)
    refine traceInv_bind (traceInv_addConditionM (fun s hs => hconds _ _ _))
      (fun _ => ?_)
    refine traceInv_bind (traceInv_updateStatusM (fun s hs => hstatus s _ hs))
      (fun _ => ?_)
    exact traceInv_addConditionM (fun s hs => hconds _ _ _)
  · refine traceInv_bind (traceInv_callApi (hpostc _)) (fun _ => ?_)
    refine traceInv_bind (traceInv_callApi (hposts _)) (fun sv => ?_)
    refine traceInv_bind (traceInv_addConditionM (fun s hs => hconds _ _ _))
      (fun _ => ?_)
    refine traceInv_bind (traceInv_pure _ _ _) (fun clientSecret => ?_)
    refine traceInv_bind (traceInv_upsertSecretM (fun sd => hsecret c sd hc))
      (fun _ => ?_)
    refine traceInv_bind (traceInv_addConditionM (fun s hs => hconds _ _ _))
      (fun _ => ?_)
    refine traceInv_bind (traceInv_updateStatusM (fun s hs => hstatus s _ hs))
      (fun _ => ?_)
    exact traceInv_addConditionM (fun s hs => hconds _ _ _)

theorem traceInv_handleDeletionM {P : Action → Prop} {env : Env}
    {s₀ : PocketIDClient}
    (hget : ∀ id, P (.getOidcClient id))
    (hdelc : ∀ id, P (.deleteOidcClient id))
    (hconds : ∀ ns n l, P (.patchConditions ns n l))
    (hstatus : ∀ s u, coreOf s = coreOf s₀ →
      P (.patchStatus s.metadata.namespace' s.metadata.name
          (mergeStatus (s.status.getD {}) u s.metadata.generation)))
    (hfin : ∀ ns n l, P (.applyFinalizers ns n l))
    (hdels : ∀ s, coreOf s = coreOf s₀ →
      P (.deleteSecretK8s s.metadata.namespace'
          (jsOrStr (s.status.bind fun st => st.secretName)
            (s.metadata.name ++ "-credentials")))) :
    TraceInv P (handleDeletionM env) s₀ := by
  unfold handleDeletionM
  refine traceInv_getClient_bind (fun c hc => ?_)
  refine traceInv_bind (traceInv_updateStatusM (fun s hs => hstatus s _ hs))
    (fun _ => ?_)
  refine traceInv_tryCatchM ?_ (fun err => ?_)
  · refine traceInv_bind (traceInv_clientExistsM (hget _)) (fun ex => ?_)
    dsimp only
    refine traceInv_ite ?_ ?_
    · refine traceInv_bind (traceInv_callApi (hdelc _)) (fun _ => ?_)
      refine traceInv_bind (traceInv_pure _ _ _) (fun y => ?_)
      refine traceInv_bind (traceInv_deleteSecretM (hdels c hc)) (fun _ => ?_)
      exact traceInv_removeFinalizerM (fun s hs => hfin _ _ _)
    · refine traceInv_bind (traceInv_pure _ _ _) (fun y => ?_)
      refine traceInv_bind (traceInv_deleteSecretM (hdels c hc)) (fun _ => ?_)
      exact traceInv_removeFinalizerM (fun s hs => hfin _ _ _)
  · exact traceInv_bind (traceInv_updateStatusM (fun s hs => hstatus s _ hs))
      (fun _ => traceInv_addConditionM (fun s hs => hconds _ _ _))

theorem traceInv_reconcileM {P : Action → Prop} {env : Env}
    {s₀ : PocketIDClient}
    (hget : ∀ id, P (.getOidcClient id))
    (hput : ∀ id, P (.putOidcClient id))
    (hpostc : ∀ id, P (.postOidcClient id))
    (hposts : ∀ id, P (.postOidcClientSecret id))
    (hdelc : ∀ id, P (.deleteOidcClient id))
    (hfin : ∀ ns n l, P (.applyFinalizers ns n l))
    (hconds : ∀ ns n l, P (.patchConditions ns n l))
    (hstatus : ∀ s u, coreOf s = coreOf s₀ →
      P (.patchStatus s.metadata.namespace' s.metadata.name
          (mergeStatus (s.status.getD {}) u s.metadata.generation)))
    (hsecret : ∀ s sd, coreOf s = coreOf s₀ →
      P (.applySecret s.metadata.namespace'
          (jsOrStr ((s.spec.bind fun sp => sp.secretTemplate).bind fun st => st.name)
            (s.metadata.name ++ "-credentials"))
          sd s.metadata.name (s.metadata.uid.getD "")))
    (hdels : ∀ s, coreOf s = coreOf s₀ →
      P (.deleteSecretK8s s.metadata.namespace'
          (jsOrStr (s.status.bind fun st => st.secretName)
            (s.metadata.name ++ "-credentials")))) :
    TraceInv P (reconcileM env) s₀ := by
  unfold reconcileM
  refine traceInv_getClient_bind (fun c hc => ?_)
  refine traceInv_ite
    (traceInv_handleDeletionM hget hdelc hconds hstatus hfin hdels) ?_
  refine traceInv_ite (traceInv_pure _ _ _) ?_
  refine traceInv_ite (traceInv_pure _ _ _) ?_
  refine traceInv_ite (traceInv_addConditionM (fun s hs => hconds _ _ _)) ?_
  refine traceInv_bind (traceInv_addFinalizerM (fun s hs => hfin _ _ _))
    (fun _ => ?_)
  refine traceInv_bind (traceInv_updateStatusM (fun s hs => hstatus s _ hs))
    (fun _ => ?_)
  refine traceInv_bind (traceInv_addConditionM (fun s hs => hconds _ _ _))
    (fun _ => ?_)
  refine traceInv_tryCatchM
    (traceInv_attemptUpsert hget hput hpostc hposts hconds hstatus hsecret)
    (fun err => ?_)
  refine traceInv_getClient_bind (fun c2 hc2 => ?_)
  exact traceInv_bind (traceInv_updateStatusM (fun s hs => hstatus s _ hs))
    (fun _ => traceInv_addConditionM (fun s hs => hconds _ _ _))

/-! ### Backoff policy (claim C3) -/

/-- C3: the claim's lower bound `base·2^(n-1) ≤ delay(n)` fails once the
exponential term exceeds the cap: at attempt `n = 7` with jitter `0`
(a legal draw, `0 ≤ 0 < 1000`), the delay is the 300000 ms cap, which is
below `base·2^6 = 320000` ms. -/
theorem calculateBackoffDelay_lower_bound_fails :
    (0 : ℚ) ≤ 0 ∧ (0 : ℚ) < 1000 ∧
      ¬ (baseDelayMs * 2 ^ (7 - 1) ≤ calculateBackoffDelay 7 0) := by
  refine ⟨le_refl 0, by norm_num, ?_⟩
  unfold calculateBackoffDelay baseDelayMs maxDelayMs
  norm_num

/-- C3 (amended): for every attempt `n ≥ 1` and jitter in `[0, 1000)` ms,
`min(base·2^(n-1), cap) ≤ delay(n) < base·2^(n-1) + 1000` and
`delay(n) ≤ cap = 300000`; the claim's unclamped lower bound
`base·2^(n-1) ≤ delay(n)` holds whenever `n ≤ 6` (where the exponential
term is below the cap). -/
theorem calculateBackoffDelay_bounds (n : Nat) (hn : 1 ≤ n) (jitter : ℚ)
    (h0 : 0 ≤ jitter) (h1 : jitter < 1000) :
    min (baseDelayMs * 2 ^ (n - 1)) maxDelayMs ≤ calculateBackoffDelay n jitter ∧
    calculateBackoffDelay n jitter < baseDelayMs * 2 ^ (n - 1) + 1000 ∧
    calculateBackoffDelay n jitter ≤ maxDelayMs ∧
    (n ≤ 6 → baseDelayMs * 2 ^ (n - 1) ≤ calculateBackoffDelay n jitter) := by
  have hcap : (0:ℚ) < maxDelayMs := by unfold maxDelayMs; norm_num
  refine ⟨?_, ?_, ?_, ?_⟩
  · exact min_le_min (by linarith) le_rfl
  · exact lt_of_le_of_lt (min_le_left _ _) (by linarith)
  · exact min_le_right _ _
  · intro h6
    refine le_min (by linarith) ?_
    have hp : (2:ℚ) ^ (n - 1) ≤ 2 ^ 5 := by
      apply pow_le_pow_right₀ (by norm_num)
      omega
    have h32 : (2:ℚ) ^ 5 = 32 := by norm_num
    rw [h32] at hp
    unfold baseDelayMs maxDelayMs
    linarith

/-- Witness for `calculateBackoffDelay_bounds` at `n = 3`, `jitter = 500`. -/
theorem calculateBackoffDelay_bounds_witness :
    (1 ≤ 3 ∧ (0:ℚ) ≤ 500 ∧ (500:ℚ) < 1000) ∧
    (min (baseDelayMs * 2 ^ (3 - 1)) maxDelayMs ≤ calculateBackoffDelay 3 500 ∧
     calculateBackoffDelay 3 500 < baseDelayMs * 2 ^ (3 - 1) + 1000 ∧
     calculateBackoffDelay 3 500 ≤ maxDelayMs ∧
     (3 ≤ 6 → baseDelayMs * 2 ^ (3 - 1) ≤ calculateBackoffDelay 3 500)) :=
  ⟨⟨by norm_num, by norm_num, by norm_num⟩,
    calculateBackoffDelay_bounds 3 (by norm_num) 500 (by norm_num) (by norm_num)⟩

theorem length_dropWhile_le (p : Char → Bool) (l : List Char) :
    (l.dropWhile p).length ≤ l.length := by
  induction l with
  | nil => simp [List.dropWhile]
  | cons a l ih =>
    by_cases h : p a <;> simp [List.dropWhile, h] <;> omega

theorem matchPlaceholder_length {field s r : List Char}
    (h : matchPlaceholder field s = some r) : r.length < s.length := by
  unfold matchPlaceholder at h
  split at h
  · rename_i rest
    have e2 : (rest.dropWhile isJsWs).length ≤ rest.length :=
      length_dropWhile_le _ _
    split at h
    · rename_i r2 heq
      split at h
      · have e1 : ((r2.drop field.length).dropWhile isJsWs).length ≤
            r2.length := by
          calc ((r2.drop field.length).dropWhile isJsWs).length
              ≤ (r2.drop field.length).length := length_dropWhile_le _ _
            _ ≤ r2.length := by simp [List.length_drop]
        split at h
        · rename_i r4 heq2
          injection h with h
          subst h
          rw [heq] at e2
          rw [heq2] at e1
          simp only [List.length_cons] at e1 e2 ⊢
          omega
        · exact absurd h (by simp)
      · exact absurd h (by simp)
    · exact absurd h (by simp)
  · exact absurd h (by simp)

theorem replaceGo_fuel (field repl : List Char) :
    ∀ fuel pre s, s.length ≤ fuel →
      replaceGo field repl fuel pre s = replaceGo field repl s.length pre s := by
  intro fuel
  induction fuel using Nat.strong_induction_on with
  | _ fuel ih =>
    intro pre s hs
    match fuel, s with
    | 0, s =>
      have h0 : s = [] := List.length_eq_zero.mp (Nat.le_zero.mp hs)
      subst h0
      rfl
    | fuel + 1, [] => rfl
    | fuel + 1, c :: rest =>
      simp only [List.length_cons] at hs ⊢
      simp only [replaceGo]
      cases hm : matchPlaceholder field (c :: rest) with
      | some r =>
        have hr := matchPlaceholder_length hm
        simp only [List.length_cons] at hr
        dsimp only
        rw [ih fuel (by omega) _ r (by omega),
          ih rest.length (by omega) _ r (by omega)]
      | none =>
        dsimp only
        rw [ih fuel (by omega) _ rest (by omega),
          ih rest.length (by omega) _ rest (by omega)]

/-! ### Condition-ledger lemmas -/



theorem upsertCondition_cons (a : Condition) (l : List Condition) (c : Condition) :
    upsertCondition (a :: l) c =
      if a.type = c.type then c :: l else a :: upsertCondition l c := by
  unfold upsertCondition
  rw [List.findIdx?_cons]
  by_cases h : a.type = c.type
  · simp [h]
  · rw [if_neg (by simp [h]), List.findIdx?_succ]
    cases hf : List.findIdx? (fun x => x.type = c.type) l with
    | none => simp [h, upsertCondition, hf]
    | some i => simp [h, upsertCondition, hf, List.set]

theorem mem_upsertCondition {b : Condition} {l : List Condition} {c : Condition}
    (h : b ∈ upsertCondition l c) : b ∈ l ∨ b = c := by
  induction l with
  | nil =>
    simp [upsertCondition] at h
    exact Or.inr h
  | cons a l ih =>
    rw [upsertCondition_cons] at h
    by_cases hac : a.type = c.type
    · simp only [hac, if_true] at h
      rcases List.mem_cons.mp h with h1 | h1
      · exact Or.inr h1
      · exact Or.inl (List.mem_cons_of_mem _ h1)
    · simp only [hac, if_false] at h
      rcases List.mem_cons.mp h with h1 | h1
      · exact Or.inl (h1 ▸ List.mem_cons_self _ _)
      · rcases ih h1 with h2 | h2
        · exact Or.inl (List.mem_cons_of_mem _ h2)
        · exact Or.inr h2

theorem upsertCondition_typesUnique (l : List Condition) (c : Condition)
    (h : typesUnique l) : typesUnique (upsertCondition l c) := by
  induction l with
  | nil =>
    simp [upsertCondition, typesUnique]
  | cons a l ih =>
    rw [upsertCondition_cons]
    rcases List.pairwise_cons.mp h with ⟨ha, hl⟩
    by_cases hac : a.type = c.type
    · simp only [hac, if_true]
      exact List.pairwise_cons.mpr ⟨fun b hb => hac ▸ ha b hb, hl⟩
    · simp only [hac, if_false]
      refine List.pairwise_cons.mpr ⟨fun b hb => ?_, ih hl⟩
      rcases mem_upsertCondition hb with h1 | h1
      · exact ha b h1
      · exact h1 ▸ hac

theorem findIdx?_lt_length {p : Condition → Bool} {l : List Condition} {i : Nat}
    (h : l.findIdx? p = some i) : i < l.length := by
  induction l generalizing i with
  | nil => simp [List.findIdx?_nil] at h
  | cons a l ih =>
    rw [List.findIdx?_cons] at h
    by_cases hp : p a
    · simp only [hp, if_true, Option.some.injEq] at h
      simp only [List.length_cons]
      omega
    · simp only [hp, if_false, List.findIdx?_succ] at h
      cases hf : l.findIdx? p with
      | none => rw [hf] at h; simp at h
      | some j =>
        rw [hf] at h
        have h2 : j + 1 = i := by simpa using h
        have h3 := ih hf
        simp only [List.length_cons]
        omega

/-- C6: the condition-ledger upsert replaces in place when the type already
appears (same length, the found index now holds the new condition, every
other position untouched), appends when the type is new, and preserves the
at-most-one-condition-per-type invariant. -/
theorem upsertCondition_spec (conds : List Condition) (c : Condition) :
    (∀ idx, conds.findIdx? (fun x => x.type = c.type) = some idx →
      upsertCondition conds c = conds.set idx c ∧
      (upsertCondition conds c).length = conds.length ∧
      (upsertCondition conds c)[idx]? = some c ∧
      ∀ j, j ≠ idx → (upsertCondition conds c)[j]? = conds[j]?) ∧
    (conds.findIdx? (fun x => x.type = c.type) = none →
      upsertCondition conds c = conds ++ [c]) ∧
    (typesUnique conds → typesUnique (upsertCondition conds c)) := by
  refine ⟨fun idx hidx => ?_, fun hnone => ?_,
    upsertCondition_typesUnique conds c⟩
  · have heq : upsertCondition conds c = conds.set idx c := by
      unfold upsertCondition
      rw [hidx]
    have hlt := findIdx?_lt_length hidx
    refine ⟨heq, by rw [heq, List.length_set], ?_, fun j hj => ?_⟩
    · rw [heq]
      simp [List.getElem?_set, hlt]
    · rw [heq]
      exact List.getElem?_set_ne (Ne.symm hj)
  · unfold upsertCondition
    rw [hnone]

/-- Witness for `upsertCondition_spec`: upserting `Ready=True` over
`[Ready=False, Synced=True]` replaces in place; over `[Synced=True]` it
appends. -/
theorem upsertCondition_spec_witness :
    upsertCondition [⟨"Ready", .False, none, 0, "", ""⟩,
        ⟨"Synced", .True, none, 0, "", ""⟩] ⟨"Ready", .True, none, 0, "", ""⟩ =
      [⟨"Ready", .True, none, 0, "", ""⟩, ⟨"Synced", .True, none, 0, "", ""⟩] ∧
    upsertCondition [⟨"Synced", .True, none, 0, "", ""⟩]
        ⟨"Ready", .True, none, 0, "", ""⟩ =
      [⟨"Synced", .True, none, 0, "", ""⟩, ⟨"Ready", .True, none, 0, "", ""⟩] := by
  constructor
  · have h := ((upsertCondition_spec
      [⟨"Ready", .False, none, 0, "", ""⟩, ⟨"Synced", .True, none, 0, "", ""⟩]
      ⟨"Ready", .True, none, 0, "", ""⟩).1 0 (by decide)).1
    rw [h]
    rfl
  · have h := (upsertCondition_spec [⟨"Synced", .True, none, 0, "", ""⟩]
      ⟨"Ready", .True, none, 0, "", ""⟩).2.1 (by decide)
    rw [h]
    rfl

theorem replaceGo_no_placeholder {field : List Char} (repl : List Char) :
    ∀ (fuel : Nat) (pre s : List Char), containsPlaceholder field s = false →
      replaceGo field repl fuel pre s = s := by
  intro fuel
  induction fuel with
  | zero =>
    intro pre s h
    rfl
  | succ fuel ih =>
    intro pre s h
    cases s with
    | nil => rfl
    | cons c rest =>
      simp only [containsPlaceholder, Bool.or_eq_false_iff] at h
      obtain ⟨h1, h2⟩ := h
      simp only [replaceGo]
      cases hm : matchPlaceholder field (c :: rest) with
      | some r =>
        rw [hm] at h1
        simp at h1
      | none =>
        dsimp only
        rw [ih (pre ++ [c]) rest h2]

/-- C4 (amended): `renderTemplate` leaves any input containing no recognized
placeholder — whitespace-tolerance decided by the full ECMAScript `\s`
class — unchanged; in particular unrecognized placeholders pass through and
rendering is idempotent on such inputs.  (The claim's further assertion that
context values are inserted exactly and never reinterpreted is refuted by
`renderTemplate_reinterprets_substituted_value`: the five replaces run
sequentially, so a value introduced by an earlier substitution is still
scanned by the later-listed fields, and `String.replace` expands the
`$`-patterns of a replacement string.) -/
theorem renderTemplate_no_placeholder_spec (t : String) (context : TemplateContext)
    (h : hasRecognizedPlaceholder t = false) :
    renderTemplate t context = t ∧
    renderTemplate (renderTemplate t context) context = renderTemplate t context := by
  have hid : renderTemplate t context = t := by
    unfold hasRecognizedPlaceholder at h
    simp only [Bool.or_eq_false_iff] at h
    obtain ⟨⟨⟨⟨h1, h2⟩, h3⟩, h4⟩, h5⟩ := h
    unfold renderTemplate replacePlaceholder
    rw [replaceGo_no_placeholder _ _ _ _ h1]
    rw [replaceGo_no_placeholder _ _ _ _ h2]
    rw [replaceGo_no_placeholder _ _ _ _ h3]
    rw [replaceGo_no_placeholder _ _ _ _ h4]
    rw [replaceGo_no_placeholder _ _ _ _ h5]
    cases t
    rfl
  exact ⟨hid, by rw [hid, hid]⟩

/-- Witness for `renderTemplate_no_placeholder_spec`: the unrecognized
placeholder `\x7b\x7b .Foo \x7d\x7d` passes through unchanged.  The last two
conjuncts show the hypothesis is decided by the full ECMAScript `\s` class:
a placeholder whose whitespace is NBSP (U+00A0) is recognized — and
substituted — rather than falling under the pass-through case. -/
theorem renderTemplate_no_placeholder_spec_witness :
    hasRecognizedPlaceholder "\x7b\x7b .Foo \x7d\x7d" = false ∧
    renderTemplate "\x7b\x7b .Foo \x7d\x7d" ⟨"a", "b", "c", "d", "e"⟩ =
      "\x7b\x7b .Foo \x7d\x7d" ∧
    hasRecognizedPlaceholder "\x7b\x7b\u00A0.ClientID\u00A0\x7d\x7d" = true ∧
    renderTemplate "\x7b\x7b\u00A0.ClientID\u00A0\x7d\x7d"
      ⟨"abc", "", "", "", ""⟩ = "abc" :=
  ⟨by decide,
    (renderTemplate_no_placeholder_spec "\x7b\x7b .Foo \x7d\x7d"
      ⟨"a", "b", "c", "d", "e"⟩ (by decide)).1,
    by decide, by decide⟩

/-- C4 counterexample: substituted values are not inserted verbatim.
First, with `ClientID = "\x7b\x7b .Namespace \x7d\x7d"` and
`Namespace = "NS"`, rendering the template `\x7b\x7b .ClientID \x7d\x7d`
yields `"NS"`: the ClientID substitution introduced placeholder text that the
later Namespace substitution then replaced, refuting "never substitutes
placeholder text that was introduced into the string by an earlier
substituted value".  Second, a value containing the JS replacement pattern
`$&` is expanded to the matched placeholder text instead of being inserted
literally, refuting "replaces … with the exact corresponding context
value". -/
theorem renderTemplate_reinterprets_substituted_value :
    (renderTemplate "\x7b\x7b .ClientID \x7d\x7d"
      ⟨"\x7b\x7b .Namespace \x7d\x7d", "", "", "NS", ""⟩ = "NS" ∧
     ("\x7b\x7b .Namespace \x7d\x7d" : String) ≠ "NS") ∧
    (renderTemplate "\x7b\x7b .ClientID \x7d\x7d"
      ⟨"$&", "", "", "", ""⟩ = "\x7b\x7b .ClientID \x7d\x7d" ∧
     ("$&" : String) ≠ "\x7b\x7b .ClientID \x7d\x7d") := by
  exact ⟨⟨by decide, by decide⟩, ⟨by decide, by decide⟩⟩

/-- C2 (amended): a failure of a phase-status patch (the `updateStatus`
helper) is swallowed: the call's outcome does not influence the trace, the
in-memory object, or the returned result, which is always success.  A
condition patch (the `addCondition` helper) has no such guard: a failing
patch propagates its error to the caller. -/
theorem statusWrite_swallowed_condWrite_propagates :
    (∀ (u : StatusUpdate) (res : Except K8sErr Unit) (s : PocketIDClient),
      updateStatusM u res s = updateStatusM u (.ok ()) s ∧
      (updateStatusM u res s).2.2 = .ok ()) ∧
    (∀ (cond : Condition) (e : K8sErr) (s : PocketIDClient),
      (addConditionM cond (.error e) s).2.2 = .error (.k8s e)) := by
  constructor
  · intro u res s
    cases res with
    | ok v => exact ⟨rfl, rfl⟩
    | error e => exact ⟨rfl, rfl⟩
  · intro cond e s
    rfl

/-- C2 counterexample: when the `ClientCreated` condition patch fails during
an otherwise successful attempt, the failure escapes `addCondition`, aborts
the attempt (the Secret is never applied) and the attempt is recorded as a
failure (`phase Failed`, `retryAttempt 1`) — refuting "every failure of a
status-subresource patch … never aborts the reconciliation attempt … and
never causes the attempt itself to be recorded as a failure". -/
theorem condWrite_failure_aborts_attempt :
    ((runReconcile failingCondEnv freshClient).1.all
      (fun a => match a with
        | .applySecret _ _ _ _ _ => false
        | _ => true)) = true ∧
    ((runReconcile failingCondEnv freshClient).1.any
      (fun a => match a with
        | .patchStatus _ _ p =>
          p.phase == some Phase.Failed && p.retryAttempt == some 1
        | _ => false)) = true := by
  constructor
  · decide
  · decide

/-- C7: steady-state idempotence — for a resource with no deletion marker,
`status.observedGeneration` equal to `metadata.generation` and phase `Ready`,
`reconcile` makes no external service calls and performs no status writes
(its trace is empty) and succeeds. -/
theorem reconcile_steady_state_noop (env : Env) (c : PocketIDClient)
    (hdel : c.metadata.deletionTimestamp = none)
    (hgen : (c.status.bind fun st => st.observedGeneration) = c.metadata.generation)
    (hph : (c.status.bind fun st => st.phase) = some Phase.Ready) :
    runReconcile env c = ([], .ok ()) := by
  unfold runReconcile reconcileM
  simp [hdel, hgen, hph]

/-- Witness for `reconcile_steady_state_noop` at `readyClient`. -/
theorem reconcile_steady_state_noop_witness :
    runReconcile { now := 100 } readyClient = ([], .ok ()) :=
  reconcile_steady_state_noop { now := 100 } readyClient rfl rfl rfl

/-- C1 (amended): for any event that reaches `reconcile` with no deletion
marker, outside the steady state, not dropped by the backoff gate, and with
`status.retryAttempt ≥ 10`, the only call made is one condition patch
recording `Ready=False/MaxRetriesExceeded`; no external service call is made.
This holds regardless of the generation: a generation bump does not re-enter
the normal reconciliation path while `retryAttempt ≥ 10`
(see `maxRetry_gate_ignores_generation_bump`). -/
theorem maxRetry_gate (env : Env) (c : PocketIDClient)
    (hdel : c.metadata.deletionTimestamp = none)
    (hready : ¬((c.status.bind fun st => st.observedGeneration) = c.metadata.generation ∧
      (c.status.bind fun st => st.phase) = some Phase.Ready))
    (hskip : ¬(shouldSkipDueToBackoff env.now c = true ∧
      (c.status.bind fun st => st.observedGeneration) = c.metadata.generation))
    (hmax : maxRetries ≤ jsOrNat (c.status.bind fun st => st.retryAttempt) 0) :
    (runReconcile env c).1 =
      [Action.patchConditions c.metadata.namespace' c.metadata.name
        (upsertCondition (condsBase c)
          (createCondition "Ready" .False "MaxRetriesExceeded"
            ("Gave up after " ++
              toString (jsOrNat (c.status.bind fun st => st.retryAttempt) 0) ++
              " failed attempts. Manual intervention required.")
            c.metadata.generation env.now))] ∧
    ∀ a ∈ (runReconcile env c).1, a.isExternalCall = false := by
  have h1 : (runReconcile env c).1 =
      [Action.patchConditions c.metadata.namespace' c.metadata.name
        (upsertCondition (condsBase c)
          (createCondition "Ready" .False "MaxRetriesExceeded"
            ("Gave up after " ++
              toString (jsOrNat (c.status.bind fun st => st.retryAttempt) 0) ++
              " failed attempts. Manual intervention required.")
            c.metadata.generation env.now))] := by
    unfold runReconcile reconcileM addConditionM
    simp [hdel, if_neg hready, if_neg hskip, if_pos hmax]
  refine ⟨h1, fun a ha => ?_⟩
  rw [h1] at ha
  simp only [List.mem_singleton] at ha
  subst ha
  rfl

/-- Witness for `maxRetry_gate` at `maxedClient` (same generation). -/
theorem maxRetry_gate_witness :
    (runReconcile { now := 100 } maxedClient).1 =
      [Action.patchConditions "ns" "app"
        [⟨"Ready", .False, some 3, 100, "MaxRetriesExceeded",
          "Gave up after 10 failed attempts. Manual intervention required."⟩]] ∧
    ∀ a ∈ (runReconcile { now := 100 } maxedClient).1, a.isExternalCall = false := by
  have h := maxRetry_gate { now := 100 } maxedClient rfl (by decide) (by decide)
    (by decide)
  refine ⟨?_, h.2⟩
  rw [h.1]
  rfl

/-- C1 counterexample: a generation bump does not reset `retryAttempt`
handling.  `maxedBumpedClient` carries a bumped generation (4, with
`observedGeneration` still 3), yet the event still terminates at the
max-retry gate — one `MaxRetriesExceeded` condition patch and no external
calls — instead of re-entering the normal reconciliation path (which would
ensure the finalizer, write phase Pending/Retrying, and call the external
service). -/
theorem maxRetry_gate_ignores_generation_bump :
    (runReconcile { now := 100 } maxedBumpedClient).1 =
      [Action.patchConditions "ns" "app"
        [⟨"Ready", .False, some 4, 100, "MaxRetriesExceeded",
          "Gave up after 10 failed attempts. Manual intervention required."⟩]] ∧
    (∀ a ∈ (runReconcile { now := 100 } maxedBumpedClient).1,
      a.isExternalCall = false) ∧
    maxedBumpedClient.metadata.generation ≠
      (maxedBumpedClient.status.bind fun st => st.observedGeneration) := by
  refine ⟨by decide, by decide, by decide⟩

/-- C10: an upsert event (no deletion marker) whose resource lacks a uid
(undefined, or the falsy empty string) or whose `metadata.generation` is
undefined is dropped by the watch handler with no side effects — the dedup
ledger is unchanged and no action of any kind is taken — while a generation
of 0 is not treated as missing: an event with generation 0 not yet in the
ledger records the ledger entry and runs `reconcile`. -/
theorem watch_gate_spec (env : Env) (ledger : List (String × Nat))
    (c : PocketIDClient) (hdel : c.metadata.deletionTimestamp = none) :
    ((jsOrStr c.metadata.uid "" = "" ∨ c.metadata.generation = none) →
      watchUpsertHandler env ledger c = (ledger, [], .ok ())) ∧
    (jsOrStr c.metadata.uid "" ≠ "" → c.metadata.generation = some 0 →
      getGen ledger (jsOrStr c.metadata.uid "") ≠ some 0 →
      watchUpsertHandler env ledger c =
        (setGen ledger (jsOrStr c.metadata.uid "") 0, runReconcile env c)) := by
  constructor
  · intro h
    unfold watchUpsertHandler
    simp [hdel, h]
  · intro hu hg hl
    unfold watchUpsertHandler
    rcases hrun : runReconcile env c with ⟨tr, r⟩
    simp [hdel, hu, hg, hl, hrun]

/-- Witness for `watch_gate_spec`: a uid-less event is dropped without a
ledger write; a generation-0 event passes the gate and reconciles. -/
theorem watch_gate_spec_witness :
    watchUpsertHandler { now := 100 } [] noUidClient = ([], [], .ok ()) ∧
    watchUpsertHandler { now := 100 } [] genZeroClient =
      (setGen [] "u2" 0, runReconcile { now := 100 } genZeroClient) := by
  constructor
  · exact (watch_gate_spec { now := 100 } [] noUidClient rfl).1 (Or.inl rfl)
  · exact (watch_gate_spec { now := 100 } [] genZeroClient rfl).2
      (by decide) (by decide) (by decide)

/-- C5: for a resource carrying a deletion marker whose external object
exists (and whose finalizer is held), the deletion sub-protocol deletes the
external object, then deletes the secondary Secret (a 404 tolerated as
success), then releases the finalizer, in that order; if the external delete
or the secret delete (other than 404) fails before the finalizer release, no
finalizer-releasing patch is issued (the finalizer remains present), phase
`RemovalFailed` is written and a `Ready=False/DeletionFailed` condition is
recorded. -/
theorem deletion_protocol (env : Env) (c : PocketIDClient)
    (hdel : c.metadata.deletionTimestamp.isSome = true)
    (hex : env.oidcClientExistsDel = true)
    (hfin : FINALIZER ∈ c.metadata.finalizers.getD []) :
    (env.deleteClientRes = .ok () →
      (env.secretDeleteRes = .ok () ∨
        ∃ e, env.secretDeleteRes = .error e ∧ e.status = some 404) →
      env.finalizerRemove = .ok () →
      runReconcile env c =
        ([Action.patchStatus c.metadata.namespace' c.metadata.name
            (mergeStatus (c.status.getD {}) { phase := some Phase.Removing }
              c.metadata.generation),
          Action.getOidcClient (jsOrStr (c.status.bind fun st => st.clientId)
            (jsOrStr (c.spec.bind fun s => s.id) c.metadata.name)),
          Action.deleteOidcClient (jsOrStr (c.status.bind fun st => st.clientId)
            (jsOrStr (c.spec.bind fun s => s.id) c.metadata.name)),
          Action.deleteSecretK8s c.metadata.namespace'
            (jsOrStr (c.status.bind fun st => st.secretName)
              (c.metadata.name ++ "-credentials")),
          Action.applyFinalizers c.metadata.namespace' c.metadata.name
            ((c.metadata.finalizers.getD []).filter (fun f => f ≠ FINALIZER))],
         .ok ())) ∧
    (∀ m, env.deleteClientRes = .error m →
      (runReconcile env c).1 =
        [Action.patchStatus c.metadata.namespace' c.metadata.name
            (mergeStatus (c.status.getD {}) { phase := some Phase.Removing }
              c.metadata.generation),
          Action.getOidcClient (jsOrStr (c.status.bind fun st => st.clientId)
            (jsOrStr (c.spec.bind fun s => s.id) c.metadata.name)),
          Action.deleteOidcClient (jsOrStr (c.status.bind fun st => st.clientId)
            (jsOrStr (c.spec.bind fun s => s.id) c.metadata.name)),
          Action.patchStatus c.metadata.namespace' c.metadata.name
            (mergeStatus (c.status.getD {}) { phase := some Phase.RemovalFailed }
              c.metadata.generation),
          Action.patchConditions c.metadata.namespace' c.metadata.name
            (upsertCondition (condsBase c)
              (createCondition "Ready" .False "DeletionFailed"
                ("Deletion failed: " ++ m) c.metadata.generation env.now))]) ∧
    (∀ e, env.deleteClientRes = .ok () → env.secretDeleteRes = .error e →
      e.status ≠ some 404 →
      (runReconcile env c).1 =
        [Action.patchStatus c.metadata.namespace' c.metadata.name
            (mergeStatus (c.status.getD {}) { phase := some Phase.Removing }
              c.metadata.generation),
          Action.getOidcClient (jsOrStr (c.status.bind fun st => st.clientId)
            (jsOrStr (c.spec.bind fun s => s.id) c.metadata.name)),
          Action.deleteOidcClient (jsOrStr (c.status.bind fun st => st.clientId)
            (jsOrStr (c.spec.bind fun s => s.id) c.metadata.name)),
          Action.deleteSecretK8s c.metadata.namespace'
            (jsOrStr (c.status.bind fun st => st.secretName)
              (c.metadata.name ++ "-credentials")),
          Action.patchStatus c.metadata.namespace' c.metadata.name
            (mergeStatus (c.status.getD {}) { phase := some Phase.RemovalFailed }
              c.metadata.generation),
          Action.patchConditions c.metadata.namespace' c.metadata.name
            (upsertCondition (condsBase c)
              (createCondition "Ready" .False "DeletionFailed"
                ("Deletion failed: " ++ e.msg) c.metadata.generation env.now))]) := by
  refine ⟨fun hdc hsd hfr => ?_, fun m hdc => ?_, fun e hdc hsd h404 => ?_⟩
  · rcases hsd with hsd | ⟨e, hsd, h404⟩
    · unfold runReconcile reconcileM handleDeletionM
      simp [hdel, hex, hdc, hsd, hfr, removeFinalizerM_mem _ c hfin]
    · unfold runReconcile reconcileM handleDeletionM
      simp [hdel, hex, hdc, hsd, h404, hfr, removeFinalizerM_mem _ c hfin]
  · unfold runReconcile reconcileM handleDeletionM
    simp [hdel, hex, hdc, RErr.message]
  · unfold runReconcile reconcileM handleDeletionM
    simp [hdel, hex, hdc, hsd, h404, RErr.message]

/-- Witness for `deletion_protocol`: the all-success deletion run of
`delClient` performs exactly the ordered five calls. -/
theorem deletion_protocol_witness :
    runReconcile { now := 100, oidcClientExistsDel := true } delClient =
      ([Action.patchStatus "ns" "app"
          { observedGeneration := some 3, conditions := none,
            phase := some Phase.Removing, retryAttempt := none,
            nextRetryTime := none, clientId := some "cid",
            secretName := some "sn" },
        Action.getOidcClient "cid",
        Action.deleteOidcClient "cid",
        Action.deleteSecretK8s "ns" "sn",
        Action.applyFinalizers "ns" "app" []],
       .ok ()) :=
  (deletion_protocol { now := 100, oidcClientExistsDel := true } delClient rfl rfl
    (by decide)).1 rfl (Or.inl rfl) rfl

/-- C8: every full-status `PatchStatus` write performed through the
`updateStatus` helper — the begin-attempt write (Pending/Retrying), the
failure-path write (Failed), the Ready write and the deletion-path writes —
carries `observedGeneration` equal to the resource's current
`metadata.generation`, on every path of `reconcile`. -/
theorem updateStatus_stamps_observedGeneration (env : Env) (c : PocketIDClient) :
    ∀ a ∈ (runReconcile env c).1, ∀ ns n p, a = Action.patchStatus ns n p →
      p.observedGeneration = c.metadata.generation := by
  have hwalk : TraceInv
      (fun a => ∀ ns n p, a = Action.patchStatus ns n p →
        p.observedGeneration = c.metadata.generation)
      (reconcileM env) c :=
    traceInv_reconcileM
      (fun id ns n p h => Action.noConfusion h)
      (fun id ns n p h => Action.noConfusion h)
      (fun id ns n p h => Action.noConfusion h)
      (fun id ns n p h => Action.noConfusion h)
      (fun id ns n p h => Action.noConfusion h)
      (fun ns1 n1 l ns n p h => Action.noConfusion h)
      (fun ns1 n1 l ns n p h => Action.noConfusion h)
      (fun s u hs ns n p hp => by
        injection hp with h1 h2 h3
        subst h3
        exact congrArg Metadata.generation (coreOf_metadata hs))
      (fun s sd hs ns n p h => Action.noConfusion h)
      (fun s hs ns n p h => Action.noConfusion h)
  intro a ha ns n p hap
  rw [runReconcile_fst] at ha
  exact (hwalk c rfl).1 a ha ns n p hap

/-- Witness for `updateStatus_stamps_observedGeneration`: the begin-attempt
(Pending) write of a fresh reconciliation carries `observedGeneration = 3`,
the resource's current generation. -/
theorem updateStatus_stamps_observedGeneration_witness :
    (Action.patchStatus "ns" "app"
        { observedGeneration := some 3, phase := some Phase.Pending } ∈
      (runReconcile { now := 100, postSecretRes := .ok "sek" } freshClient).1) ∧
    (some 3 : Option Nat) = freshClient.metadata.generation :=
  ⟨by decide,
    updateStatus_stamps_observedGeneration
      { now := 100, postSecretRes := .ok "sek" } freshClient
      (Action.patchStatus "ns" "app"
        { observedGeneration := some 3, phase := some Phase.Pending })
      (by decide) "ns" "app"
      { observedGeneration := some 3, phase := some Phase.Pending } rfl⟩

/-- C9: on the deletion path every Secret delete targets
`status.secretName ?? "{name}-credentials"` — `spec.secretTemplate.name` is
never consulted — while on the upsert path every Secret apply targets
`spec.secretTemplate.name ?? "{name}-credentials"`.  Consequently a resource
whose custom secret name was never persisted to `status.secretName` has the
default-named secret deleted (`app-credentials`) rather than the custom-named
one (`custom`), which the upsert path would have created. -/
theorem secretName_resolution :
    (∀ (env : Env) (c : PocketIDClient),
      ∀ a ∈ (runHandleDeletion env c).1, ∀ ns n,
        a = Action.deleteSecretK8s ns n →
          n = jsOrStr (c.status.bind fun st => st.secretName)
            (c.metadata.name ++ "-credentials")) ∧
    (∀ (env : Env) (c : PocketIDClient),
      ∀ a ∈ (runReconcile env c).1, ∀ ns n sd own ouid,
        a = Action.applySecret ns n sd own ouid →
          n = jsOrStr ((c.spec.bind fun sp => sp.secretTemplate).bind
              fun st => st.name)
            (c.metadata.name ++ "-credentials")) ∧
    ((runReconcile { now := 100, oidcClientExistsDel := true }
        customClientDel).1.any
      (fun a => a == Action.deleteSecretK8s "ns" "app-credentials") = true) ∧
    ((runReconcile { now := 100, oidcClientExistsDel := true }
        customClientDel).1.all
      (fun a => match a with
        | Action.deleteSecretK8s _ n => n != "custom"
        | _ => true) = true) ∧
    ((runReconcile { now := 100, postSecretRes := .ok "sek" }
        customClientUpsert).1.any
      (fun a => match a with
        | Action.applySecret _ n _ _ _ => n == "custom"
        | _ => false) = true) := by
  refine ⟨?_, ?_, by decide, by decide, by decide⟩
  · intro env c
    have hwalk : TraceInv
        (fun a => ∀ ns n, a = Action.deleteSecretK8s ns n →
          n = jsOrStr (c.status.bind fun st => st.secretName)
            (c.metadata.name ++ "-credentials"))
        (handleDeletionM env) c :=
      traceInv_handleDeletionM
        (fun id ns n h => Action.noConfusion h)
        (fun id ns n h => Action.noConfusion h)
        (fun ns1 n1 l ns n h => Action.noConfusion h)
        (fun s u hs ns n h => Action.noConfusion h)
        (fun ns1 n1 l ns n h => Action.noConfusion h)
        (fun s hs ns n hp => by
          injection hp with h1 h2
          rw [← h2, coreOf_secretName hs,
            congrArg Metadata.name (coreOf_metadata hs)])
    intro a ha ns n hap
    rw [runHandleDeletion_fst] at ha
    exact (hwalk c rfl).1 a ha ns n hap
  · intro env c
    have hwalk : TraceInv
        (fun a => ∀ ns n sd own ouid, a = Action.applySecret ns n sd own ouid →
          n = jsOrStr ((c.spec.bind fun sp => sp.secretTemplate).bind
              fun st => st.name)
            (c.metadata.name ++ "-credentials"))
        (reconcileM env) c :=
      traceInv_reconcileM
        (fun id ns n sd own ouid h => Action.noConfusion h)
        (fun id ns n sd own ouid h => Action.noConfusion h)
        (fun id ns n sd own ouid h => Action.noConfusion h)
        (fun id ns n sd own ouid h => Action.noConfusion h)
        (fun id ns n sd own ouid h => Action.noConfusion h)
        (fun ns1 n1 l ns n sd own ouid h => Action.noConfusion h)
        (fun ns1 n1 l ns n sd own ouid h => Action.noConfusion h)
        (fun s u hs ns n sd own ouid h => Action.noConfusion h)
        (fun s sd0 hs ns n sd own ouid hp => by
          injection hp with h1 h2 h3 h4 h5
          rw [← h2, congrArg PocketIDClient.spec (rfl : c = c)]
          rw [coreOf_spec hs, congrArg Metadata.name (coreOf_metadata hs)])
        (fun s hs ns n sd own ouid h => Action.noConfusion h)
    intro a ha ns n sd own ouid hap
    rw [runReconcile_fst] at ha
    exact (hwalk c rfl).1 a ha ns n sd own ouid hap

/-- Witness for `secretName_resolution`: the deletion of `customClientDel`
deletes the default-named secret, and that name is what the deletion-path
resolution rule prescribes. -/
theorem secretName_resolution_witness :
    (Action.deleteSecretK8s "ns" "app-credentials" ∈
      (runHandleDeletion { now := 100, oidcClientExistsDel := true }
        customClientDel).1) ∧
    "app-credentials" =
      jsOrStr (customClientDel.status.bind fun st => st.secretName)
        (customClientDel.metadata.name ++ "-credentials") :=
  ⟨by decide,
    secretName_resolution.1 { now := 100, oidcClientExistsDel := true }
      customClientDel (Action.deleteSecretK8s "ns" "app-credentials")
      (by decide) "ns" "app-credentials" rfl⟩

end PocketID
